import Mathlib

/-!
Verification of the poplar repository's training orchestration and encoder
against its specification.

The development shallowly embeds the relevant code:
* `src/poplar/model/dummy.py` — the `DummyModel` token table and `encode`;
* `src/poplar/train/ppi.py` — the `train` orchestration loop (epoch count,
  gradient-accumulation trigger, final sink operations);
* `src/poplar/train/simple_ppi.py` — `simple_ppitrain` (epoch count, the
  cross-validation pass with its metric arithmetic and emission, final sink
  operations) and the `simple_ppirun` entry point's module-level name
  resolution.

Python strings are modelled as `List Char`, floats as `ℚ` (the claims under
study concern which arithmetic is performed, not rounding), fallible
operations as `Except`.
-/

namespace Poplar

/-! ### DummyModel (src/poplar/model/dummy.py)

`self.peptides = dict(zip('^.ABCDEFGHIJKLMNOPQRSTUVWXYZ', np.arange(27)))`
(line 26): a 28-character string zipped against 27 integers; `zip`
truncates at the shorter argument. -/

/-- Embedding of `DummyModel.__init__`'s token table (dummy.py line 26). -/
def peptides : List (Char × ℕ) :=
  "^.ABCDEFGHIJKLMNOPQRSTUVWXYZ".toList.zip (List.range 27)

/-- Embedding of the dict lookup `self.peptides[x]` (dummy.py line 44): the
dict keys are single-character strings, so only one-character tokens can
succeed. -/
def lookupTok (t : List Char) : Option ℕ :=
  match t with
  | [c] => peptides.lookup c
  | _ => none

/-- Embedding of Python's `str.split(sep)` for a one-character separator:
split at every occurrence, keeping empty fields (`''.split(' ') = ['']`). -/
def splitAux (sep : Char) : List Char → List Char → List (List Char)
  | [], acc => [acc.reverse]
  | c :: cs, acc =>
    if c = sep then acc.reverse :: splitAux sep cs []
    else splitAux sep cs (c :: acc)

/-- Python `s.split(sep)` (dummy.py line 43). -/
def split (sep : Char) (s : List Char) : List (List Char) := splitAux sep s []

/-- Embedding of `list(map(lambda x: self.peptides[x], y))` (dummy.py
line 44): lookups are performed left to right and the first missing key
raises `KeyError` (modelled as `Except.error` carrying the offending
token). -/
def mapTokens : List (List Char) → Except (List Char) (List ℕ)
  | [] => .ok []
  | t :: ts =>
    match lookupTok t with
    | some v =>
      match mapTokens ts with
      | .ok vs => .ok (v :: vs)
      | .error e => .error e
    | none => .error t

/-- Embedding of `DummyModel.encode` (dummy.py lines 42-47):
`y = '^ ' + x + ' .'`, `y = y.split(' ')`, then the token lookup map. -/
def encode (x : List Char) : Except (List Char) (List ℕ) :=
  mapTokens (split ' ' (['^', ' '] ++ x ++ [' ', '.']))

lemma splitAux_append_sep (sep c : Char) (hc : c ≠ sep) :
    ∀ (x acc : List Char),
      splitAux sep (x ++ [sep, c]) acc = splitAux sep x acc ++ [[c]] := by
  intro x
  induction x with
  | nil =>
    intro acc
    simp [splitAux, hc]
  | cons d ds ih =>
    intro acc
    by_cases hd : d = sep
    · subst hd
      simp [splitAux, ih]
    · simp [splitAux, hd, ih]

lemma split_wrap (x : List Char) :
    split ' ' (['^', ' '] ++ x ++ [' ', '.']) =
      ['^'] :: (split ' ' x ++ [['.']]) := by
  have h2 : ('.' : Char) ≠ ' ' := by decide
  have hshape : (['^', ' '] ++ x ++ [' ', '.'])
      = '^' :: ' ' :: (x ++ [' ', '.']) := by simp
  rw [split, hshape]
  simp only [splitAux, if_neg (by decide : ¬ ('^' : Char) = ' '),
    if_pos (rfl : (' ' : Char) = ' ')]
  rw [splitAux_append_sep ' ' '.' h2 x []]
  simp [split]

lemma mapTokens_ok (l : List (List Char)) (h : ∀ t ∈ l, (lookupTok t).isSome) :
    mapTokens l = Except.ok (l.map fun t => (lookupTok t).getD 0) := by
  induction l with
  | nil => rfl
  | cons t ts ih =>
    obtain ⟨v, hv⟩ := Option.isSome_iff_exists.mp (h t (List.mem_cons_self t ts))
    have hts : ∀ u ∈ ts, (lookupTok u).isSome :=
      fun u hu => h u (List.mem_cons_of_mem t hu)
    simp [mapTokens, hv, ih hts]

lemma mapTokens_error_of_mem {l : List (List Char)} {t : List Char}
    (ht : t ∈ l) (hnone : lookupTok t = none) :
    ∃ e, mapTokens l = Except.error e := by
  induction l with
  | nil => cases ht
  | cons a as ih =>
    rcases List.mem_cons.mp ht with rfl | hmem
    · exact ⟨t, by simp [mapTokens, hnone]⟩
    · cases ha : lookupTok a with
      | none => exact ⟨a, by simp [mapTokens, ha]⟩
      | some v =>
        obtain ⟨e, he⟩ := ih hmem
        exact ⟨e, by simp [mapTokens, ha, he]⟩

lemma splitAux_mem_of_mem {sep c : Char} (hc : c ≠ sep) :
    ∀ (s acc : List Char), (c ∈ s ∨ c ∈ acc) →
      ∃ t ∈ splitAux sep s acc, c ∈ t := by
  intro s
  induction s with
  | nil =>
    intro acc h
    refine ⟨acc.reverse, by simp [splitAux], ?_⟩
    rcases h with h | h
    · cases h
    · simpa using h
  | cons d ds ih =>
    intro acc h
    by_cases hd : d = sep
    · subst hd
      have h' : c ∈ ds ∨ c ∈ acc := by
        rcases h with h | h
        · rcases List.mem_cons.mp h with rfl | h
          · exact absurd rfl hc
          · exact Or.inl h
        · exact Or.inr h
      rcases h' with h' | h'
      · obtain ⟨t, ht, hct⟩ := ih [] (Or.inl h')
        exact ⟨t, by simp [splitAux, ht], hct⟩
      · exact ⟨acc.reverse, by simp [splitAux], by simpa using h'⟩
    · have h' : c ∈ ds ∨ c ∈ d :: acc := by
        rcases h with h | h
        · rcases List.mem_cons.mp h with rfl | h
          · exact Or.inr (List.mem_cons_self c acc)
          · exact Or.inl h
        · exact Or.inr (List.mem_cons_of_mem d h)
      obtain ⟨t, ht, hct⟩ := ih (d :: acc) h'
      refine ⟨t, ?_, hct⟩
      simpa [splitAux, hd] using ht

lemma mem_split_of_mem {sep c : Char} (hc : c ≠ sep) {s : List Char}
    (hs : c ∈ s) : ∃ t ∈ split sep s, c ∈ t :=
  splitAux_mem_of_mem hc s [] (Or.inl hs)

lemma lookupTok_none_of_Z {t : List Char} (h : 'Z' ∈ t) :
    lookupTok t = none := by
  match t with
  | [] => cases h
  | [c] =>
    have hc : 'Z' = c := by simpa using h
    subst hc
    decide
  | c :: d :: r => rfl

/-- C8: for every whitespace-delimited input whose fields all lie in the
token table, `encode` returns a token sequence of length L+2 beginning with
the `'^'` token and ending with the `'.'` token; moreover any input with a
field outside the table makes `encode` raise a lookup failure. -/
theorem encode_length_and_delimiters (x : List Char) (L : ℕ)
    (hall : ∀ t ∈ split ' ' x, (lookupTok t).isSome)
    (hL : (split ' ' x).length = L) :
    (∃ z, encode x = Except.ok z ∧ z.length = L + 2 ∧
      z.head? = peptides.lookup '^' ∧ z.getLast? = peptides.lookup '.') ∧
    (∀ (y t : List Char), t ∈ split ' ' y → lookupTok t = none →
      ∃ e, encode y = Except.error e) := by
  constructor
  · have hfull : ∀ t ∈ ['^'] :: (split ' ' x ++ [['.']]),
        (lookupTok t).isSome := by
      intro t ht
      rcases List.mem_cons.mp ht with rfl | ht
      · decide
      · rcases List.mem_append.mp ht with ht | ht
        · exact hall t ht
        · have heq : t = ['.'] := by simpa using ht
          subst heq; decide
    refine ⟨_, by rw [encode, split_wrap, mapTokens_ok _ hfull], ?_, ?_, ?_⟩
    · simp [hL]
    · simp
      decide
    · rw [List.map_cons, List.map_append, List.map_singleton,
        ← List.cons_append, List.getLast?_concat]
      decide
  · intro y t ht hnone
    rw [encode, split_wrap]
    exact mapTokens_error_of_mem
      (List.mem_cons_of_mem _ (List.mem_append_left _ ht)) hnone

/-- Witness for C8 at the concrete input `"A B"` (L = 2). -/
theorem encode_length_and_delimiters_witness :
    (∀ t ∈ split ' ' ['A', ' ', 'B'], (lookupTok t).isSome) ∧
    (split ' ' ['A', ' ', 'B']).length = 2 ∧
    (∃ z, encode ['A', ' ', 'B'] = Except.ok z ∧ z.length = 2 + 2 ∧
      z.head? = peptides.lookup '^' ∧ z.getLast? = peptides.lookup '.') :=
  ⟨by decide, by decide,
    (encode_length_and_delimiters ['A', ' ', 'B'] 2 (by decide) (by decide)).1⟩

/-- C10: the token table holds exactly 27 entries, keyed by `'^'`, `'.'`,
and the letters `'A'` through `'Y'` — the zip of the 28-character alphabet
string against `range 27` drops the final `'Z'` — so `encode` fails with a
lookup error on every input containing the letter `'Z'`. -/
theorem peptides_truncation_drops_Z :
    peptides.length = 27 ∧
    peptides.map Prod.fst = "^.ABCDEFGHIJKLMNOPQRSTUVWXY".toList ∧
    peptides.lookup 'Z' = none ∧
    ∀ x : List Char, 'Z' ∈ x → ∃ e, encode x = Except.error e := by
  refine ⟨by decide, by decide, by decide, ?_⟩
  intro x hx
  obtain ⟨t, ht, hZt⟩ := mem_split_of_mem (by decide : ('Z' : Char) ≠ ' ') hx
  rw [encode, split_wrap]
  exact mapTokens_error_of_mem
    (List.mem_cons_of_mem _ (List.mem_append_left _ ht))
    (lookupTok_none_of_Z hZt)

/-- Witness for C10 at the concrete input `"G Z"`. -/
theorem peptides_truncation_drops_Z_witness :
    ('Z' ∈ ['G', ' ', 'Z']) ∧ ∃ e, encode ['G', ' ', 'Z'] = Except.error e :=
  ⟨by decide, peptides_truncation_drops_Z.2.2.2 ['G', ' ', 'Z'] (by decide)⟩

/-! ### Training loop orchestration (src/poplar/train/ppi.py `train`,
src/poplar/train/simple_ppi.py `simple_ppitrain`)

Both training loops share the per-batch structure (ppi.py lines 108-145,
simple_ppi.py lines 118-166): process the batch, then
`if j % gradient_accumulation_steps == 0: optimizer.step();
scheduler.step(); model.zero_grad()`.  The loops are embedded as event
traces; the loss arithmetic itself is opaque to the claims under study. -/

/-- Observable events of one training run. -/
inductive TrainEvent where
  | batch (j : ℕ)
  | optStep
  | schedStep
  | zeroGrad
  | cvPass (k : ℕ)
deriving DecidableEq, Repr

/-- Embedding of the accumulation trigger (ppi.py lines 142-145,
simple_ppi.py lines 163-166): the optimizer step, scheduler step and
gradient clearing fire exactly when `j % gradient_accumulation_steps == 0`. -/
def accumulationBlock (G j : ℕ) : List TrainEvent :=
  if j % G = 0 then [.optStep, .schedStep, .zeroGrad] else []

/-- One iteration of the inner batch loop at batch index `j`. -/
def processBatch (G j : ℕ) : List TrainEvent :=
  .batch j :: accumulationBlock G j

/-- One dataset shard: all its training batches in order, then the
cross-validation pass over its test loader (ppi.py lines 108-149,
simple_ppi.py lines 118-203); `nb` is the shard's training batch count. -/
def shardEvents (G nb k : ℕ) : List TrainEvent :=
  (List.range nb).flatMap (processBatch G) ++ [.cvPass k]

/-- One epoch: every shard of the dataset directory in order. -/
def onePass (G : ℕ) (shards : List ℕ) : List TrainEvent :=
  shards.enum.flatMap fun p => shardEvents G p.2 p.1

/-- The full `for e in range(epochs)` loop. -/
def trainEvents (epochs G : ℕ) (shards : List ℕ) : List TrainEvent :=
  (List.range epochs).flatMap fun _ => onePass G shards

/-- A dataset directory: per-shard training batch counts, plus the total
pair count reported by `directory_dataloader.total()` (an external
collaborator). -/
structure Directory where
  shards : List ℕ
  total : ℕ
deriving DecidableEq, Repr

/-- Embedding of the epoch computation in ppi.py `train` (lines 85-86):
`max_steps = max(1, max_steps); epochs = max_steps // num_data`.
`max_steps` is a Python int, so it is taken in `ℤ`; `max 1 max_steps ≥ 1`
makes `toNat` followed by `ℕ` division agree with Python floor division. -/
def ppiEpochs (max_steps : ℤ) (num_data : ℕ) : ℕ :=
  (max 1 max_steps).toNat / num_data

/-- Event trace of ppi.py `train` (lines 100-149). -/
def ppiTrainEvents (max_steps : ℤ) (G : ℕ) (d : Directory) : List TrainEvent :=
  trainEvents (ppiEpochs max_steps d.total) G d.shards

/-- Embedding of the epoch computation in simple_ppi.py `simple_ppitrain`
(lines 68-75): when `max_steps > 0`,
`t_total = (max_steps // gradient_accumulation_steps) + 1;
epochs = t_total // num_data`; otherwise `epochs = 1`. -/
def simpleEpochs (max_steps : ℤ) (G num_data : ℕ) : ℕ :=
  if 0 < max_steps then (max_steps.toNat / G + 1) / num_data else 1

/-- Event trace of simple_ppi.py `simple_ppitrain` (lines 108-203). -/
def simpleTrainEvents (max_steps : ℤ) (G : ℕ) (d : Directory) :
    List TrainEvent :=
  trainEvents (simpleEpochs max_steps G d.total) G d.shards

/-- C1: ppi.py `train` called with `max_steps = 0` on a directory whose
total pair count is 2 (one shard, one training batch) computes
`epochs = max(1, 0) // 2 = 0`, so not a single batch is processed — against
the claim and the function's own docstring ("If this is zero, then it'll
default to one epochs worth of protein pairs").  `simple_ppitrain` on the
same input performs exactly one nonempty full pass. -/
theorem ppi_max_steps_zero_runs_zero_epochs :
    ppiEpochs 0 2 = 0 ∧
    ppiTrainEvents 0 1 (Directory.mk [1] 2) = [] ∧
    simpleEpochs 0 1 2 = 1 ∧
    simpleTrainEvents 0 1 (Directory.mk [1] 2) = onePass 1 [1] ∧
    onePass 1 [1] ≠ [] := by decide

/-- C2: in ppi.py `train` the epoch count is `max(1, max_steps) // N`
(stated over `ℤ`, where `/` is floor division on these nonnegative
operands), so whenever `0 < max_steps < N` zero epochs run and the trace is
empty: no batch, no optimizer step, no cross-validation pass. -/
theorem ppi_sub_epoch_max_steps_runs_nothing (max_steps : ℤ) (G : ℕ)
    (d : Directory) (h1 : 0 < max_steps) (h2 : max_steps < (d.total : ℤ)) :
    (∀ (ms : ℤ) (N : ℕ), (ppiEpochs ms N : ℤ) = max 1 ms / (N : ℤ)) ∧
    ppiEpochs max_steps d.total = 0 ∧
    ppiTrainEvents max_steps G d = [] := by
  refine ⟨?_, ?_, ?_⟩
  · intro ms N
    have h0 : (0 : ℤ) ≤ max 1 ms := le_trans zero_le_one (le_max_left 1 ms)
    rw [ppiEpochs, Int.ofNat_ediv, Int.toNat_of_nonneg h0]
  · have hm : max 1 max_steps = max_steps := max_eq_right h1
    have hlt : (max 1 max_steps).toNat < d.total := by
      rw [hm]
      exact (Int.toNat_lt (le_of_lt h1)).mpr h2
    exact Nat.div_eq_of_lt hlt
  · have hz : ppiEpochs max_steps d.total = 0 := by
      have hm : max 1 max_steps = max_steps := max_eq_right h1
      have hlt : (max 1 max_steps).toNat < d.total := by
        rw [hm]
        exact (Int.toNat_lt (le_of_lt h1)).mpr h2
      exact Nat.div_eq_of_lt hlt
    rw [ppiTrainEvents, hz]
    rfl

/-- Witness for C2 at `max_steps = 1`, one shard of 3 batches,
`total() = 2`. -/
theorem ppi_sub_epoch_max_steps_runs_nothing_witness :
    (0 : ℤ) < 1 ∧ (1 : ℤ) < ((Directory.mk [3] 2).total : ℤ) ∧
    (ppiEpochs 1 (Directory.mk [3] 2).total = 0 ∧
      ppiTrainEvents 1 1 (Directory.mk [3] 2) = []) :=
  ⟨by decide, by decide,
    (ppi_sub_epoch_max_steps_runs_nothing 1 1 (Directory.mk [3] 2)
      (by decide) (by decide)).2⟩

/-- Window of `G` consecutive batch indices starting at `a`:
`[a, a+1, ..., a+G-1]`. -/
def window : ℕ → ℕ → List ℕ
  | _, 0 => []
  | a, g + 1 => a :: window (a + 1) g

/-- Events produced by the inner loop across one window of consecutive
batch indices. -/
def windowEvents (G a : ℕ) : List TrainEvent :=
  (window a G).flatMap (processBatch G)

lemma window_mem : ∀ (G a j : ℕ), j ∈ window a G ↔ a ≤ j ∧ j < a + G := by
  intro G
  induction G with
  | zero => intro a j; simp [window]
  | succ g ih =>
    intro a j
    rw [window, List.mem_cons, ih (a + 1) j]
    omega

lemma window_concat : ∀ (g a : ℕ), window a (g + 1) = window a g ++ [a + g] := by
  intro g
  induction g with
  | zero => intro a; simp [window]
  | succ g ih =>
    intro a
    rw [window, ih (a + 1), window]
    simp
    omega

lemma countP_mod_window (G : ℕ) (hG : 1 ≤ G) :
    ∀ a, (window a G).countP (fun j => decide (j % G = 0)) = 1 := by
  obtain ⟨g, rfl⟩ : ∃ g, G = g + 1 := ⟨G - 1, by omega⟩
  intro a
  induction a with
  | zero =>
    rw [window, List.countP_cons]
    have hz : (window 1 g).countP (fun j => decide (j % (g + 1) = 0)) = 0 := by
      rw [List.countP_eq_zero]
      intro j hj
      have hr := (window_mem g 1 j).mp hj
      have : j % (g + 1) = j := Nat.mod_eq_of_lt (by omega)
      simp [this]
      omega
    simp [hz]
  | succ a ih =>
    rw [window, List.countP_cons] at ih
    rw [window_concat g (a + 1), List.countP_append, List.countP_cons,
      List.countP_nil]
    have hmod : (a + 1 + g) % (g + 1) = a % (g + 1) := by
      rw [show a + 1 + g = a + (g + 1) by omega, Nat.add_mod_right]
    simp only [hmod]
    by_cases h : a % (g + 1) = 0 <;> simp [h] at ih ⊢ <;> exact ih

lemma processBatch_count_optStep (G j : ℕ) :
    (processBatch G j).count TrainEvent.optStep
      = if j % G = 0 then 1 else 0 := by
  by_cases h : j % G = 0 <;> simp [processBatch, accumulationBlock, h]

lemma processBatch_count_schedStep (G j : ℕ) :
    (processBatch G j).count TrainEvent.schedStep
      = if j % G = 0 then 1 else 0 := by
  by_cases h : j % G = 0 <;> simp [processBatch, accumulationBlock, h]

lemma count_flatMap_processBatch (G : ℕ) (ev : TrainEvent)
    (per : ∀ j, (processBatch G j).count ev = if j % G = 0 then 1 else 0) :
    ∀ l : List ℕ, (l.flatMap (processBatch G)).count ev
      = l.countP (fun j => decide (j % G = 0)) := by
  intro l
  induction l with
  | nil => simp
  | cons j js ih =>
    rw [List.flatMap_cons, List.count_append, per j, List.countP_cons, ih]
    by_cases h : j % G = 0 <;> (simp [h]; try omega)

/-- C3: the optimizer step, scheduler step and gradient clearing appear in
a batch's events exactly when `j % gradient_accumulation_steps = 0` (so
they fire on batch 0), and over any window of `G` consecutive batch
indices — which contains exactly one index with zero modulo — exactly one
optimizer step and one scheduler step occur. -/
theorem accumulation_fires_on_zero_modulo (G a : ℕ) (hG : 1 ≤ G) :
    (∀ j, (TrainEvent.optStep ∈ processBatch G j ↔ j % G = 0) ∧
      (TrainEvent.schedStep ∈ processBatch G j ↔ j % G = 0) ∧
      (TrainEvent.zeroGrad ∈ processBatch G j ↔ j % G = 0)) ∧
    (∀ j, j ∈ window a G ↔ a ≤ j ∧ j < a + G) ∧
    (window a G).countP (fun j => decide (j % G = 0)) = 1 ∧
    (windowEvents G a).count TrainEvent.optStep = 1 ∧
    (windowEvents G a).count TrainEvent.schedStep = 1 := by
  refine ⟨?_, window_mem G a, countP_mod_window G hG a, ?_, ?_⟩
  · intro j
    refine ⟨?_, ?_, ?_⟩ <;>
      (by_cases h : j % G = 0 <;> simp [processBatch, accumulationBlock, h])
  · rw [windowEvents,
      count_flatMap_processBatch G _ (processBatch_count_optStep G),
      countP_mod_window G hG a]
  · rw [windowEvents,
      count_flatMap_processBatch G _ (processBatch_count_schedStep G),
      countP_mod_window G hG a]

/-- Witness for C3 at `G = 2`, window starting at batch index 3. -/
theorem accumulation_fires_on_zero_modulo_witness :
    1 ≤ 2 ∧ (TrainEvent.optStep ∈ processBatch 2 4 ↔ 4 % 2 = 0) ∧
    (windowEvents 2 3).count TrainEvent.optStep = 1 ∧
    (windowEvents 2 3).count TrainEvent.schedStep = 1 :=
  ⟨by decide, ((accumulation_fires_on_zero_modulo 2 3 (by decide)).1 4).1,
    (accumulation_fires_on_zero_modulo 2 3 (by decide)).2.2.2.1,
    (accumulation_fires_on_zero_modulo 2 3 (by decide)).2.2.2.2⟩

/-! ### Cross-validation pass (src/poplar/train/simple_ppi.py lines 169-203)

Inside `torch.no_grad()`: reset `cv_err, pos_score, rank_counts` to 0, read
`batch_size = test_dataloader.batch_size`, accumulate over the test batches,
then — only when `len(test_dataloader) > 0` — average and emit
`test_error`, `TPR` and `pos_score` at the current step counter `it`. -/

/-- One test batch: the per-example `(pred_pos, pred_neg)` similarity-score
pairs produced by the model's `predict`, and the scalar triplet loss
`cv_score` from `forward`. -/
structure TestBatch where
  examples : List (ℚ × ℚ)
  cvScore : ℚ

/-- Embedding of the per-batch accumulation (simple_ppi.py lines 178-180):
`cv_err += cv_score.item()`, `pos_score += torch.sum(pred_pos).item()`,
`rank_counts += torch.sum(pred_pos > pred_neg).item()`. -/
def cvStep (acc : ℚ × ℚ × ℕ) (b : TestBatch) : ℚ × ℚ × ℕ :=
  (acc.1 + b.cvScore,
   acc.2.1 + (b.examples.map Prod.fst).sum,
   acc.2.2 + b.examples.countP fun p => decide (p.2 < p.1))

/-- The accumulators `(cv_err, pos_score, rank_counts)` after the test-batch
loop, starting from the reset `(0, 0, 0)` of simple_ppi.py line 170. -/
def cvAccum (batches : List TestBatch) : ℚ × ℚ × ℕ :=
  batches.foldl cvStep (0, 0, 0)

/-- A scalar record written to the Metrics Sink by `writer.add_scalar`. -/
structure MetricRecord where
  name : String
  value : ℚ
  step : ℕ

/-- Python float division: raises `ZeroDivisionError` on a zero
denominator. -/
def fdiv (a b : ℚ) : Except String ℚ :=
  if b = 0 then .error "ZeroDivisionError" else .ok (a / b)

/-- Embedding of the cross-validation pass tail (simple_ppi.py
lines 169-203).  `bs` is `test_dataloader.batch_size`, `it` the Training
Step Counter, `tpr0` the value `tpr` holds before the pass (it is only
reassigned inside the guard).  Returns the emitted metric records and the
final `(cv_err, tpr, pos_score)` values. -/
def crossValidation (batches : List TestBatch) (bs it : ℕ) (tpr0 : ℚ) :
    Except String (List MetricRecord × ℚ × ℚ × ℚ) :=
  let acc := cvAccum batches
  if 0 < batches.length then
    Except.bind (fdiv acc.1 batches.length) fun cv_err =>
    Except.bind (fdiv (acc.2.2 : ℚ) batches.length) fun avg_rank =>
    Except.bind (fdiv avg_rank bs) fun tpr =>
    Except.bind (fdiv acc.2.1 batches.length) fun pos_score =>
    Except.ok ([⟨"test_error", cv_err, it⟩, ⟨"TPR", tpr, it⟩,
                ⟨"pos_score", pos_score, it⟩],
               cv_err, tpr, pos_score)
  else
    Except.ok ([], 0, tpr0, 0)

/-- C4: a shard whose test loader yields zero batches makes the
cross-validation pass complete without a division-by-zero error, emitting
no metric record; the averages stay at their reset value 0 and `tpr` keeps
its previous value. -/
theorem cv_empty_shard_safe (bs it : ℕ) (tpr0 : ℚ) :
    crossValidation [] bs it tpr0 = Except.ok ([], 0, tpr0, 0) := rfl

lemma fdiv_ok {b : ℚ} (a : ℚ) (hb : b ≠ 0) : fdiv a b = Except.ok (a / b) := by
  simp [fdiv, hb]

/-- C5 (amended): after a non-empty test shard of `B` batches with positive
`batch_size`, the pass reports `cv_err` as the accumulated loss over `B`,
`avg_rank = rank_counts / B`, `tpr = avg_rank / batch_size`, `pos_score` as
the accumulated positive-score sum over `B`, and emits `test_error`, `TPR`
and `pos_score` (three records — `avg_rank` itself is only printed, not
emitted) at the current Training Step Counter value. -/
theorem cv_metrics_formulas (batches : List TestBatch) (bs it : ℕ) (tpr0 : ℚ)
    (hB : 0 < batches.length) (hbs : 0 < bs) :
    crossValidation batches bs it tpr0 = Except.ok
      ([⟨"test_error", (cvAccum batches).1 / (batches.length : ℚ), it⟩,
        ⟨"TPR", ((cvAccum batches).2.2 : ℚ) / (batches.length : ℚ) / (bs : ℚ), it⟩,
        ⟨"pos_score", (cvAccum batches).2.1 / (batches.length : ℚ), it⟩],
       (cvAccum batches).1 / (batches.length : ℚ),
       ((cvAccum batches).2.2 : ℚ) / (batches.length : ℚ) / (bs : ℚ),
       (cvAccum batches).2.1 / (batches.length : ℚ)) := by
  have h1 : ((batches.length : ℚ)) ≠ 0 := Nat.cast_ne_zero.mpr hB.ne'
  have h2 : ((bs : ℚ)) ≠ 0 := Nat.cast_ne_zero.mpr hbs.ne'
  rw [crossValidation]
  simp only [hB, if_pos, fdiv_ok _ h1, fdiv_ok _ h2, Except.bind]

/-- Witness for C5's amended statement on one concrete batch. -/
theorem cv_metrics_formulas_witness :
    0 < ([TestBatch.mk [((3 : ℚ), 1)] 5] : List TestBatch).length ∧ 0 < 2 ∧
    crossValidation [TestBatch.mk [((3 : ℚ), 1)] 5] 2 9 0 = Except.ok
      ([⟨"test_error", (cvAccum [TestBatch.mk [((3 : ℚ), 1)] 5]).1
          / (([TestBatch.mk [((3 : ℚ), 1)] 5] : List TestBatch).length : ℚ), 9⟩,
        ⟨"TPR", ((cvAccum [TestBatch.mk [((3 : ℚ), 1)] 5]).2.2 : ℚ)
          / (([TestBatch.mk [((3 : ℚ), 1)] 5] : List TestBatch).length : ℚ) / ((2 : ℕ) : ℚ), 9⟩,
        ⟨"pos_score", (cvAccum [TestBatch.mk [((3 : ℚ), 1)] 5]).2.1
          / (([TestBatch.mk [((3 : ℚ), 1)] 5] : List TestBatch).length : ℚ), 9⟩],
       (cvAccum [TestBatch.mk [((3 : ℚ), 1)] 5]).1
        / (([TestBatch.mk [((3 : ℚ), 1)] 5] : List TestBatch).length : ℚ),
       ((cvAccum [TestBatch.mk [((3 : ℚ), 1)] 5]).2.2 : ℚ)
        / (([TestBatch.mk [((3 : ℚ), 1)] 5] : List TestBatch).length : ℚ) / ((2 : ℕ) : ℚ),
       (cvAccum [TestBatch.mk [((3 : ℚ), 1)] 5]).2.1
        / (([TestBatch.mk [((3 : ℚ), 1)] 5] : List TestBatch).length : ℚ)) :=
  ⟨by decide, by decide,
    cv_metrics_formulas [TestBatch.mk [((3 : ℚ), 1)] 5] 2 9 0
      (by decide) (by decide)⟩

/-- C5 (counterexample to the claim as stated): on a shard of one test
batch with two examples both ranking positive above negative,
`avg_rank = rank_counts / B = 2`, yet only three records — `test_error`
(value 7), `TPR` (value 1) and `pos_score` (value 10) — reach the Metrics
Sink; no emitted record carries the `avg_rank` quantity 2, so "emits all
four quantities" is false. -/
theorem cv_emits_three_not_four :
    crossValidation [TestBatch.mk [((3 : ℚ), 1), ((7 : ℚ), 2)] 7] 2 11 0
      = Except.ok ([⟨"test_error", 7, 11⟩, ⟨"TPR", 1, 11⟩,
                    ⟨"pos_score", 10, 11⟩], 7, 1, 10) ∧
    ((cvAccum [TestBatch.mk [((3 : ℚ), 1), ((7 : ℚ), 2)] 7]).2.2 : ℚ)
      / (([TestBatch.mk [((3 : ℚ), 1), ((7 : ℚ), 2)] 7] : List TestBatch).length : ℚ) = 2 ∧
    ([(⟨"test_error", 7, 11⟩ : MetricRecord), ⟨"TPR", 1, 11⟩,
      ⟨"pos_score", 10, 11⟩].map MetricRecord.value) = [7, 1, 10] ∧
    (7 : ℚ) ≠ 2 ∧ (1 : ℚ) ≠ 2 ∧ (10 : ℚ) ≠ 2 := by
  refine ⟨?_, by norm_num [cvAccum, cvStep], rfl, by norm_num, by norm_num,
    by norm_num⟩
  rw [crossValidation]
  norm_num [cvAccum, cvStep, fdiv, Except.bind]

lemma cvAccum_rank_eq (batches : List TestBatch) :
    ∀ init : ℚ × ℚ × ℕ, (batches.foldl cvStep init).2.2 =
      init.2.2 + (batches.map fun b =>
        b.examples.countP fun p => decide (p.2 < p.1)).sum := by
  induction batches with
  | nil => intro init; simp
  | cons b bs ih =>
    intro init
    rw [List.foldl_cons, ih (cvStep init b), List.map_cons, List.sum_cons]
    simp [cvStep]
    omega

/-- C7: at every point of the cross-validation pass — i.e. after any list
of batches processed so far — `rank_counts` is at most the total number of
test examples seen, since each batch adds the count of examples whose
anchor-positive score exceeds their anchor-negative score, which is at most
the batch's example count. -/
theorem rank_counts_bounded (processed : List TestBatch) :
    (cvAccum processed).2.2 ≤ (processed.map fun b => b.examples.length).sum := by
  rw [cvAccum, cvAccum_rank_eq processed (0, 0, 0)]
  simp only [zero_add]
  exact List.sum_le_sum fun b _ => List.countP_le_length _

/-! ### Final summary and sink shutdown

simple_ppi.py lines 205-223: `writer.add_hparams(hparam_dict={...},
metric_dict={...})`, then `writer.close()`, then `return finetuned_model`.
ppi.py lines 152-170: the whole `writer.add_hparams` block is commented out
("TODO: hparams isn't importing correctly"), leaving only `writer.close()`
and `return ppi_model`. -/

/-- Operations a training function performs on the Metrics Sink after its
training loops finish. -/
inductive SinkOp where
  | addScalar (nm : String) (value : ℚ) (step : ℕ)
  | addHparams (hparam_dict : List (String × ℚ)) (metric_dict : List (String × ℚ))
  | close
deriving DecidableEq, Repr

/-- Recognizer for a hyperparameter/metric summary record. -/
def SinkOp.isHparams : SinkOp → Bool
  | .addHparams _ _ => true
  | _ => false

/-- Embedding of simple_ppi.py lines 205-223: the final
`writer.add_hparams` call followed by `writer.close()`. -/
def simpleFinalOps (emb lr warm G bsz err cv_err tpr pos : ℚ) : List SinkOp :=
  [.addHparams
      [("emb_dimension", emb), ("learning_rate", lr), ("warmup_steps", warm),
       ("gradient_accumulation_steps", G), ("batch_size", bsz)]
      [("train_error", err), ("test_error", cv_err), ("TPR", tpr),
       ("pos_score", pos)],
   .close]

/-- Embedding of ppi.py lines 152-170: the `add_hparams` block is commented
out in the source, so only `writer.close()` runs. -/
def ppiFinalOps : List SinkOp := [.close]

/-- Embedding of `return ppi_model` (ppi.py line 170). -/
def ppiTrainReturn {α : Type} (ppi_model : α) : α := ppi_model

/-- Embedding of `return finetuned_model` (simple_ppi.py line 223). -/
def simpleTrainReturn {α : Type} (finetuned_model : α) : α := finetuned_model

/-- C6 (counterexample to the claim as stated): ppi.py `train` performs no
`add_hparams` write at all before closing the Metrics Sink — the summary
block is commented out — so "each training function writes a final
hyperparameter/metric summary record" is false. -/
theorem ppi_train_writes_no_hparams :
    ppiFinalOps = [SinkOp.close] ∧
    ppiFinalOps.countP SinkOp.isHparams = 0 := by decide

/-- C6 (amended): `simple_ppitrain` returns the trained model and writes
exactly one final hyperparameter/metric summary record (hparam_dict plus
metric_dict with train_error, test_error, TPR, pos_score) before closing
the Metrics Sink; ppi.py's `train` returns the trained model but closes
the sink without writing any summary record. -/
theorem final_summary_behavior {α : Type} (m : α)
    (emb lr warm G bsz err cv_err tpr pos : ℚ) :
    simpleTrainReturn m = m ∧ ppiTrainReturn m = m ∧
    (simpleFinalOps emb lr warm G bsz err cv_err tpr pos).countP
      SinkOp.isHparams = 1 ∧
    simpleFinalOps emb lr warm G bsz err cv_err tpr pos =
      [SinkOp.addHparams
        [("emb_dimension", emb), ("learning_rate", lr), ("warmup_steps", warm),
         ("gradient_accumulation_steps", G), ("batch_size", bsz)]
        [("train_error", err), ("test_error", cv_err), ("TPR", tpr),
         ("pos_score", pos)],
       SinkOp.close] ∧
    (simpleFinalOps emb lr warm G bsz err cv_err tpr pos).getLast? =
      some SinkOp.close ∧
    ppiFinalOps.countP SinkOp.isHparams = 0 :=
  ⟨rfl, rfl, rfl, rfl, rfl, rfl⟩

/-! ### Name resolution in the `simple_ppirun` entry point
(src/poplar/train/simple_ppi.py lines 226-309)

The module simple_ppi.py binds, at top level, its imports (lines 1-14) and
its two function definitions; no name `train` is among them.
`simple_ppirun`'s body resolves its global names at call time: the
statement `finetuned_model = train(...)` (line 298) looks up `train` and
raises `NameError`.  The inputs of `simple_ppirun` play no role in this
lookup, so the model treats the preceding external calls as succeeding. -/

/-- Top-level bindings of the module simple_ppi.py: the imported names
(lines 1-14) and the two functions it defines. -/
def simple_ppi_module_names : List String :=
  ["os", "time", "datetime", "np", "tqdm", "torch", "optim",
   "RobertaModel", "RobertaConstrastiveHead", "InteractionDataDirectory",
   "encode", "tokenize", "SummaryWriter", "clip_grad_norm_",
   "AdamW", "WarmupLinearSchedule", "simple_ppitrain", "simple_ppirun"]

/-- The successive statements of `simple_ppirun`'s body
(simple_ppi.py lines 281-309). -/
inductive RunEvent where
  | loadPretrained
  | toDevice
  | freezeParams
  | countGpus
  | setBatchSize
  | buildDirectory
  | callTrain
  | saveCheckpoint
deriving DecidableEq, Repr

/-- `simple_ppirun`'s statements paired with the module-level global names
each one reads (builtins such as `print` and `max` resolve in Python's
builtin scope and are omitted). -/
def simple_ppirun_body : List (RunEvent × List String) :=
  [(.loadPretrained, ["RobertaModel"]),
   (.toDevice, []),
   (.freezeParams, []),
   (.countGpus, ["torch"]),
   (.setBatchSize, []),
   (.buildDirectory, ["InteractionDataDirectory"]),
   (.callTrain, ["train"]),
   (.saveCheckpoint, ["torch"])]

/-- Execute statements in order; the first statement reading a global name
absent from the module bindings raises `NameError` there, and neither it
nor any later statement produces its event. -/
def runStatements : List (RunEvent × List String) → List RunEvent × Option String
  | [] => ([], none)
  | (ev, names) :: rest =>
    match names.find? (fun n => ! simple_ppi_module_names.contains n) with
    | some n => ([], some ("NameError: name " ++ n ++ " is not defined"))
    | none =>
      let r := runStatements rest
      (ev :: r.1, r.2)

/-- Outcome of a call to `simple_ppirun`: the statements that completed and
the error that aborted it. -/
def simple_ppirun_result : List RunEvent × Option String :=
  runStatements simple_ppirun_body

/-- C9: `simple_ppirun` constructs the interaction directory and then
raises `NameError` on the undefined global `train` (the training function
the module actually defines is `simple_ppitrain`), so no model is ever
trained and no checkpoint saved. -/
theorem simple_ppirun_raises_nameerror :
    simple_ppirun_result =
      ([RunEvent.loadPretrained, RunEvent.toDevice, RunEvent.freezeParams,
        RunEvent.countGpus, RunEvent.setBatchSize, RunEvent.buildDirectory],
       some "NameError: name train is not defined") ∧
    RunEvent.buildDirectory ∈ simple_ppirun_result.1 ∧
    RunEvent.callTrain ∉ simple_ppirun_result.1 ∧
    RunEvent.saveCheckpoint ∉ simple_ppirun_result.1 ∧
    "train" ∉ simple_ppi_module_names ∧
    "simple_ppitrain" ∈ simple_ppi_module_names := by decide

end Poplar
